import Mathlib

/-!
Shallow embedding of `crates/ide-completion/src/completions/type_.rs`
(type-position completion for rust-analyzer): the data model consumed from
the semantic model (`hir`), the two entry points `complete_type_path` and
`complete_inferred_type`, and their helpers `scope_def_applicable` and
`add_assoc_item`.  External semantic-model queries (scope enumeration,
trait items, path-candidate traversal, type inference, rendering) are
fields of the per-request `CompletionContext`, as the source threads them
through `ctx`/`ctx.sema`/`ctx.db`.
-/

namespace TypePosition

abbrev FunctionId := Nat
abbrev VariantId := Nat
abbrev StaticId := Nat
abbrev ConstId := Nat
abbrev MacroId := Nat
abbrev BuiltinTypeId := Nat
abbrev AdtId := Nat
abbrev ModuleId := Nat
abbrev TraitId := Nat
abbrev TypeAliasId := Nat
abbrev LocalId := Nat
abbrev LabelId := Nat
abbrev LifetimeParamId := Nat
abbrev TypeParamId := Nat
abbrev ConstParamId := Nat
abbrev ImplId := Nat
abbrev AdtSelfId := Nat
abbrev Ty := Nat
abbrev Pat := Nat
abbrev Expr := Nat
abbrev PathId := Nat
abbrev Name := Nat

/-- Embedding of `hir::ModuleDef`: module-level definitions as consumed by this file. -/
inductive ModuleDef where
  | module (m : ModuleId)
  | function (f : FunctionId)
  | adt (a : AdtId)
  | variant (v : VariantId)
  | const (c : ConstId)
  | staticDef (s : StaticId)
  | traitDef (t : TraitId)
  | typeAlias (a : TypeAliasId)
  | builtinType (b : BuiltinTypeId)
  | macroDef (m : MacroId)
  deriving DecidableEq

/-- Embedding of `hir::GenericParam`. -/
inductive GenericParam where
  | lifetimeParam (l : LifetimeParamId)
  | typeParam (t : TypeParamId)
  | constParam (c : ConstParamId)
  deriving DecidableEq

/-- Embedding of `hir::ScopeDef`: one entry of a name scope. -/
inductive ScopeDef where
  | moduleDef (d : ModuleDef)
  | genericParam (g : GenericParam)
  | implSelfType (i : ImplId)
  | adtSelfType (a : AdtSelfId)
  | localDef (l : LocalId)
  | label (l : LabelId)
  | unknown
  deriving DecidableEq

/-- Embedding of `hir::AssocItem`. -/
inductive AssocItem where
  | const (c : ConstId)
  | function (f : FunctionId)
  | typeAlias (t : TypeAliasId)
  deriving DecidableEq

/-- Embedding of `hir::PathResolution`. -/
inductive PathResolution where
  | defRes (d : ModuleDef)
  | localRes (l : LocalId)
  | typeParam (p : TypeParamId)
  | constParam (p : ConstParamId)
  | selfType (i : ImplId)
  | builtinAttr (b : Nat)
  | toolModule (m : Nat)
  | deriveHelper (d : Nat)
  deriving DecidableEq

/-- Embedding of `context::PathKind`: only `Type` is handled by `complete_type_path`. -/
inductive PathKind where
  | typ
  | expr
  | other
  deriving DecidableEq

/-- Embedding of `context::PathQualifierCtx` (the fields this file reads). -/
structure PathQualifierCtx where
  isInferQualifier : Bool
  resolution : Option PathResolution
  deriving DecidableEq

/-- Embedding of `context::PathCompletionCtx` (the fields this file reads). -/
structure PathCompletionCtx where
  kind : PathKind
  isAbsolutePath : Bool
  qualifier : Option PathQualifierCtx
  deriving DecidableEq

/-- The syntactic facts the generic-argument-list branch reads off an
`ast::PathSegment`: whether some ancestor is an `ast::TypeBound`, and the
parent path handed to `resolve_path`. -/
structure PathSegment where
  inTypeBound : Bool
  parentPath : PathId
  deriving DecidableEq

/-- The generic-argument list node: its parent cast to a path segment, when
that cast succeeds. -/
structure GenericArgListCtx where
  parentPathSegment : Option PathSegment
  deriving DecidableEq

/-- Embedding of `patterns::TypeAnnotation`. -/
inductive TypeAnnot where
  | letPat (p : Option Pat)
  | fnParam (p : Option Pat)
  | constBody (e : Option Expr)
  | retType (e : Option Expr)
  deriving DecidableEq

/-- Embedding of `patterns::ImmediateLocation` (the variants this file reads). -/
inductive ImmediateLocation where
  | typeBound
  | genericArgList (g : GenericArgListCtx)
  | typeAnnot (t : TypeAnnot)
  | other
  deriving DecidableEq

/-- The tokens `previous_token_is` is queried with here. -/
inductive Token where
  | implKw
  | forKw
  | otherTok
  deriving DecidableEq

/-- One entry written into the `Completions` sink, tagged by which sink
operation produced it. -/
inductive Completion where
  | resolution (n : Name) (d : ScopeDef)
  | typeAlias (a : TypeAliasId)
  | typeAliasWithEq (a : TypeAliasId)
  | const (c : ConstId)
  | crateRoots
  | namerefKeywordsWithColon
  | inference (s : String)
  deriving DecidableEq

/-- The per-request completion context: the syntactic classification of the
cursor plus the read-only semantic-model queries the source reaches through
`ctx`, `ctx.sema` and `ctx.db`. -/
structure CompletionContext where
  pathContext : Option PathCompletionCtx
  completionLocation : Option ImmediateLocation
  expectsGenericArg : Bool
  prevToken : Option Token
  module : ModuleId
  krate : Nat
  traitsInScope : List TraitId
  macroIsFnLike : MacroId → Bool
  moduleScope : ModuleId → List (Name × ScopeDef)
  allNames : List (Name × ScopeDef)
  traitItems : TraitId → List AssocItem
  traitItemsWithSupertraits : TraitId → List AssocItem
  adtTy : AdtId → Ty
  typeAliasTy : TypeAliasId → Ty
  builtinTy : BuiltinTypeId → Ty
  typeParamTy : TypeParamId → Ty
  implSelfTy : ImplId → Ty
  iteratePathCandidates : Ty → List AssocItem
  iterateAssocItems : Ty → List AssocItem
  shorthandTypeParam : TypeParamId → List TypeAliasId
  shorthandSelfType : ImplId → List TypeAliasId
  resolvePath : PathId → Option PathResolution
  typeOfPat : Pat → Option Ty
  typeOfExpr : Expr → Option Ty
  adjusted : Ty → Ty
  asAdt : Ty → Option AdtId
  adtModule : AdtId → ModuleId
  displaySourceCode : Ty → ModuleId → Option String

/-- Embedding of `ctx.previous_token_is(token)`. -/
def previousTokenIs (ctx : CompletionContext) (t : Token) : Bool :=
  ctx.prevToken == some t

/-- The `scope_def_applicable` closure of `complete_type_path`
(type_.rs lines 27-48). -/
def scope_def_applicable (ctx : CompletionContext) (d : ScopeDef) : Bool :=
  match d with
  | .genericParam (.lifetimeParam _) | .label _ => false
  | .moduleDef (.function _) | .moduleDef (.variant _) | .moduleDef (.staticDef _)
  | .localDef _ => false
  | .moduleDef (.const _) | .genericParam (.constParam _) => ctx.expectsGenericArg
  | .implSelfType _ =>
      !(previousTokenIs ctx .implKw) && !(previousTokenIs ctx .forKw)
  | .moduleDef (.macroDef mac) => ctx.macroIsFnLike mac
  | .moduleDef (.builtinType _) | .moduleDef (.adt _) | .moduleDef (.module _)
  | .moduleDef (.traitDef _) | .moduleDef (.typeAlias _)
  | .adtSelfType _ | .unknown | .genericParam (.typeParam _) => true

/-- Embedding of `add_assoc_item` (type_.rs lines 230-236), returning the sink writes it
performs: a constant is added only in generic-argument-list position,
functions are never added, type aliases always are. -/
def add_assoc_item (ctx : CompletionContext) (item : AssocItem) : List Completion :=
  match item with
  | .const ct => if ctx.expectsGenericArg then [.const ct] else []
  | .function _ => []
  | .typeAlias ty => [.typeAlias ty]

/-- Modelled from the spec: the external semantic-model query
`SemanticsScope::assoc_type_shorthand_candidates` (hir, not part of this
repository's sources) visits the type-alias associated items reachable as
`<Self as ...>::Assoc`-style shorthand on a resolution.  Per the source
comment at the call site ("Add associated types on type parameters and
`Self`.") it yields candidates only for type-parameter and `Self`-type
resolutions; for every other resolution it visits nothing. -/
def assoc_type_shorthand_candidates (ctx : CompletionContext)
    (res : PathResolution) : List TypeAliasId :=
  match res with
  | .typeParam p => ctx.shorthandTypeParam p
  | .selfType i => ctx.shorthandSelfType i
  | _ => []

/-- The deduplicated `iterate_path_candidates` loop of the type-parameter /
`Self`-type branch (type_.rs lines 127-142): an identity-keyed `seen` set,
each not-yet-seen visited item is forwarded to `add_assoc_item`. -/
def iterate_deduped (ctx : CompletionContext) :
    List AssocItem → List AssocItem → List Completion
  | [], _ => []
  | item :: rest, seen =>
      if item ∈ seen then iterate_deduped ctx rest seen
      else add_assoc_item ctx item ++ iterate_deduped ctx rest (item :: seen)

/-- Module-qualifier branch (type_.rs lines 71-78): enumerate the module's
scope, keeping entries accepted by `scope_def_applicable`. -/
def module_scope_applicable (ctx : CompletionContext) (m : ModuleId) :
    List Completion :=
  (ctx.moduleScope m).filterMap fun nd =>
    if scope_def_applicable ctx nd.2 then some (.resolution nd.1 nd.2) else none

/-- ADT / type-alias / builtin-type qualifier branch (type_.rs lines
94-112): traverse the concrete type's path candidates through
`add_assoc_item`, then iterate its associated items a second time adding
only type aliases. -/
def concrete_type_candidates (ctx : CompletionContext) (ty : Ty) :
    List Completion :=
  (ctx.iteratePathCandidates ty).flatMap (add_assoc_item ctx) ++
    (ctx.iterateAssocItems ty).filterMap fun item =>
      match item with
      | .typeAlias ty2 => some (.typeAlias ty2)
      | _ => none

/-- The restriction applied in trait-bound position (type_.rs lines
152-158): only function-like macros, traits and modules. -/
def trait_bound_filter (ctx : CompletionContext) (res : ScopeDef) : Bool :=
  match res with
  | .moduleDef (.macroDef mac) => ctx.macroIsFnLike mac
  | .moduleDef (.traitDef _) | .moduleDef (.module _) => true
  | _ => false

/-- Trait-bound position: `process_all_names` restricted by
`trait_bound_filter` (type_.rs lines 151-162). -/
def trait_bound_names (ctx : CompletionContext) : List Completion :=
  ctx.allNames.filterMap fun nd =>
    if trait_bound_filter ctx nd.2 then some (.resolution nd.1 nd.2) else none

/-- Result of `items_with_supertraits` filtered to type aliases, each surfaced through
`add_type_alias_with_eq` (type_.rs lines 172-177). -/
def assoc_types_with_eq (ctx : CompletionContext) (t : TraitId) :
    List Completion :=
  (ctx.traitItemsWithSupertraits t).filterMap fun item =>
    match item with
    | .typeAlias al => some (.typeAliasWithEq al)
    | _ => none

/-- The generic-argument-list step of the unqualified branch (type_.rs lines
165-181): when the argument list's parent is a path segment inside a trait
bound and the bound's path resolves to a trait, surface that trait's
associated type aliases (supertraits included) with an `=`. -/
def generic_arg_trait_items (ctx : CompletionContext) : List Completion :=
  match ctx.completionLocation with
  | some (.genericArgList argList) =>
      match argList.parentPathSegment with
      | some pathSeg =>
          if pathSeg.inTypeBound then
            match ctx.resolvePath pathSeg.parentPath with
            | some (.defRes (.traitDef t)) => assoc_types_with_eq ctx t
            | _ => []
          else []
      | none => []
  | _ => []

/-- Final unqualified step (type_.rs lines 182-186): `process_all_names`
filtered by `scope_def_applicable`. -/
def all_names_applicable (ctx : CompletionContext) : List Completion :=
  ctx.allNames.filterMap fun nd =>
    if scope_def_applicable ctx nd.2 then some (.resolution nd.1 nd.2) else none

/-- Qualified-path branch of `complete_type_path` (type_.rs lines 50-146). -/
def complete_qualified (ctx : CompletionContext) (q : PathQualifierCtx) :
    List Completion :=
  if q.isInferQualifier then
    (ctx.traitsInScope.flatMap ctx.traitItems).flatMap (add_assoc_item ctx)
  else
    match q.resolution with
    | none => []
    | some resolution =>
        (assoc_type_shorthand_candidates ctx resolution).map Completion.typeAlias ++
          match resolution with
          | .defRes (.module m) => module_scope_applicable ctx m
          | .defRes (.adt a) => concrete_type_candidates ctx (ctx.adtTy a)
          | .defRes (.typeAlias a) => concrete_type_candidates ctx (ctx.typeAliasTy a)
          | .defRes (.builtinType b) => concrete_type_candidates ctx (ctx.builtinTy b)
          | .defRes (.traitDef t) => (ctx.traitItems t).flatMap (add_assoc_item ctx)
          | .typeParam p =>
              iterate_deduped ctx (ctx.iteratePathCandidates (ctx.typeParamTy p)) []
          | .selfType implDef =>
              iterate_deduped ctx (ctx.iteratePathCandidates (ctx.implSelfTy implDef)) []
          | _ => []

/-- Unqualified branch of `complete_type_path` (type_.rs lines 147-187). -/
def complete_unqualified (ctx : CompletionContext) (is_absolute_path : Bool) :
    List Completion :=
  if is_absolute_path then [.crateRoots]
  else
    .namerefKeywordsWithColon ::
      match ctx.completionLocation with
      | some .typeBound => trait_bound_names ctx
      | _ => generic_arg_trait_items ctx ++ all_names_applicable ctx

/-- Embedding of `complete_type_path` (type_.rs lines 14-189): runs only for a
`PathKind::Type` path context, then dispatches on the qualifier. -/
def complete_type_path (ctx : CompletionContext) : List Completion :=
  match ctx.pathContext with
  | some pc =>
      match pc.kind with
      | .typ =>
          match pc.qualifier with
          | some q => complete_qualified ctx q
          | none => complete_unqualified ctx pc.isAbsolutePath
      | _ => []
  | none => []

/-- Lines 202-211 of `complete_inferred_type`: the adjusted inferred type of
the annotated pattern or expression, when the cursor is at a type
annotation and the semantic model knows the type. -/
def inferred_adjusted (ctx : CompletionContext) : Option Ty :=
  match ctx.completionLocation with
  | some (.typeAnnot pat) =>
      (match pat with
       | .letPat p | .fnParam p => p.bind ctx.typeOfPat
       | .constBody e | .retType e => e.bind ctx.typeOfExpr).map ctx.adjusted
  | _ => none

/-- Lines 225-226: render the type relative to a module; on success emit the
single inferred-type suggestion. -/
def render_inference (ctx : CompletionContext) (x : Ty) (m : ModuleId) :
    List Completion :=
  match ctx.displaySourceCode x m with
  | some ty_string => [.inference ty_string]
  | none => []

/-- Lines 202-227 of `complete_inferred_type`, after the absolute-path early
return: compute the inferred type, apply the module-qualifier check, render. -/
def complete_inferred_type_body (ctx : CompletionContext)
    (path_qualifier : Option PathQualifierCtx) : List Completion :=
  match inferred_adjusted ctx with
  | none => []
  | some x =>
      match path_qualifier.bind (fun q => q.resolution) with
      | some (.defRes (.module m)) =>
          match ctx.asAdt x with
          | some adt =>
              if ctx.adtModule adt ≠ m then [] else render_inference ctx x m
          | none => []
      | _ => render_inference ctx x ctx.module

/-- Embedding of `complete_inferred_type` (type_.rs lines 191-228). -/
def complete_inferred_type (ctx : CompletionContext) : List Completion :=
  match ctx.pathContext with
  | some pathCtx =>
      if pathCtx.isAbsolutePath then []
      else complete_inferred_type_body ctx pathCtx.qualifier
  | none => complete_inferred_type_body ctx none

/-- The resolutions `complete_type_path` dispatches on (type_.rs lines
70-143); everything else falls to the final `_ => ()` arm. -/
def dispatching_resolution (r : PathResolution) : Bool :=
  match r with
  | .defRes (.module _) | .defRes (.adt _) | .defRes (.typeAlias _)
  | .defRes (.builtinType _) | .defRes (.traitDef _)
  | .typeParam _ | .selfType _ => true
  | _ => false

/-- A minimal concrete context: empty scopes, no path context, every
semantic-model query returns nothing.  Concrete request contexts below are
built from it by overriding fields. -/
def baseCtx : CompletionContext where
  pathContext := none
  completionLocation := none
  expectsGenericArg := false
  prevToken := none
  module := 0
  krate := 0
  traitsInScope := []
  macroIsFnLike := fun _ => false
  moduleScope := fun _ => []
  allNames := []
  traitItems := fun _ => []
  traitItemsWithSupertraits := fun _ => []
  adtTy := fun _ => 0
  typeAliasTy := fun _ => 0
  builtinTy := fun _ => 0
  typeParamTy := fun _ => 0
  implSelfTy := fun _ => 0
  iteratePathCandidates := fun _ => []
  iterateAssocItems := fun _ => []
  shorthandTypeParam := fun _ => []
  shorthandSelfType := fun _ => []
  resolvePath := fun _ => none
  typeOfPat := fun _ => none
  typeOfExpr := fun _ => none
  adjusted := fun t => t
  asAdt := fun _ => none
  adtModule := fun _ => 0
  displaySourceCode := fun _ _ => none

/-- Concrete qualifier resolving to type parameter 0. -/
def qC1 : PathQualifierCtx := { isInferQualifier := false, resolution := some (.typeParam 0) }

/-- Concrete type path context with qualifier `qC1`. -/
def pcC1 : PathCompletionCtx := { kind := .typ, isAbsolutePath := false, qualifier := some qC1 }

/-- Concrete request: `T::$0` where the path-candidate traversal for `T`'s
type visits the same type alias twice (two bounds reaching one supertrait
item) and a constant. -/
def ctxC1 : CompletionContext :=
  { baseCtx with
      pathContext := some pcC1
      iteratePathCandidates := fun _ => [.typeAlias 1, .typeAlias 1, .const 2] }

/-- Concrete qualifier whose resolution is a local binding. -/
def qC2 : PathQualifierCtx := { isInferQualifier := false, resolution := some (.localRes 5) }

/-- Concrete type path context with qualifier `qC2`. -/
def pcC2 : PathCompletionCtx := { kind := .typ, isAbsolutePath := false, qualifier := some qC2 }

/-- Concrete request whose qualifier resolves to a local binding, with
plenty of names in scope. -/
def ctxC2 : CompletionContext :=
  { baseCtx with
      pathContext := some pcC2
      allNames := [(0, .moduleDef (.adt 1)), (1, .moduleDef (.traitDef 2))]
      moduleScope := fun _ => [(0, .moduleDef (.adt 1))] }

/-- Concrete qualifier resolving to module 3. -/
def qC3 : PathQualifierCtx :=
  { isInferQualifier := false, resolution := some (.defRes (.module 3)) }

/-- Concrete non-absolute path context with qualifier `qC3`. -/
def pcC3 : PathCompletionCtx := { kind := .typ, isAbsolutePath := false, qualifier := some qC3 }

/-- Concrete request: return-type annotation whose body expression infers to
a type that is ADT 4 living in module 3 — the qualifier's module. -/
def ctxC3 : CompletionContext :=
  { baseCtx with
      pathContext := some pcC3
      completionLocation := some (.typeAnnot (.retType (some 0)))
      typeOfExpr := fun _ => some 9
      asAdt := fun _ => some 4
      adtModule := fun _ => 3
      displaySourceCode := fun _ _ => some "MyStruct" }

/-- Concrete unqualified type path context. -/
def pcC4 : PathCompletionCtx := { kind := .typ, isAbsolutePath := false, qualifier := none }

/-- Concrete request in trait-bound position with a trait, an ADT and a
non-function-like macro in scope. -/
def ctxC4 : CompletionContext :=
  { baseCtx with
      pathContext := some pcC4
      completionLocation := some .typeBound
      allNames :=
        [(0, .moduleDef (.traitDef 1)), (1, .moduleDef (.adt 2)),
         (2, .moduleDef (.macroDef 3))] }

/-- Concrete generic-argument-list location inside a trait bound. -/
def galC5 : GenericArgListCtx :=
  { parentPathSegment := some { inTypeBound := true, parentPath := 0 } }

/-- Concrete request: completing inside `T: Trait<$0>` where the bound's
path resolves to trait 2 whose supertrait-closed item list holds a type
alias and a constant. -/
def ctxC5 : CompletionContext :=
  { baseCtx with
      pathContext := some pcC4
      completionLocation := some (.genericArgList galC5)
      resolvePath := fun _ => some (.defRes (.traitDef 2))
      traitItemsWithSupertraits := fun _ => [.typeAlias 3, .const 4] }

/-- Concrete qualifier resolving to trait 1. -/
def qC6 : PathQualifierCtx :=
  { isInferQualifier := false, resolution := some (.defRes (.traitDef 1)) }

/-- Concrete type path context with qualifier `qC6`. -/
def pcC6 : PathCompletionCtx := { kind := .typ, isAbsolutePath := false, qualifier := some qC6 }

/-- Concrete request: `Trait::$0` outside a generic-argument list, the trait
owning a type alias, a constant and a function. -/
def ctxC6 : CompletionContext :=
  { baseCtx with
      pathContext := some pcC6
      traitItems := fun _ => [.typeAlias 2, .const 3, .function 4] }

/-- Concrete absolute path context. -/
def pcC9 : PathCompletionCtx := { kind := .typ, isAbsolutePath := true, qualifier := none }

/-- Concrete request on an absolute path, with an otherwise inferrable
return type. -/
def ctxC9 : CompletionContext :=
  { baseCtx with
      pathContext := some pcC9
      completionLocation := some (.typeAnnot (.retType (some 0)))
      typeOfExpr := fun _ => some 9
      displaySourceCode := fun _ _ => some "MyStruct" }

/-- Concrete qualifier resolving to a type parameter (not a module). -/
def qC10 : PathQualifierCtx := { isInferQualifier := false, resolution := some (.typeParam 0) }

/-- Concrete non-absolute path context with qualifier `qC10`. -/
def pcC10 : PathCompletionCtx :=
  { kind := .typ, isAbsolutePath := false, qualifier := some qC10 }

/-- Concrete request: let-pattern annotation, qualifier resolving to a type
parameter, inferred type renderable as `Foo` — the inferred type is not an
ADT at all, yet a suggestion is still emitted. -/
def ctxC10 : CompletionContext :=
  { baseCtx with
      pathContext := some pcC10
      completionLocation := some (.typeAnnot (.letPat (some 0)))
      typeOfPat := fun _ => some 9
      displaySourceCode := fun _ _ => some "Foo" }

/-- Membership in the sink writes of `add_assoc_item`, characterised. -/
theorem mem_add_assoc_item (ctx : CompletionContext) (it : AssocItem) (c : Completion) :
    c ∈ add_assoc_item ctx it ↔
      ((∃ ct, it = .const ct ∧ c = .const ct ∧ ctx.expectsGenericArg = true) ∨
        (∃ a, it = .typeAlias a ∧ c = .typeAlias a)) := by
  cases it with
  | const ct => cases h : ctx.expectsGenericArg <;> simp [add_assoc_item, h]
  | function f => simp [add_assoc_item]
  | typeAlias a => simp [add_assoc_item]

/-- Distinct associated items produce distinct sink writes. -/
theorem add_assoc_item_inj (ctx : CompletionContext) (it it2 : AssocItem) (c : Completion)
    (h1 : c ∈ add_assoc_item ctx it) (h2 : c ∈ add_assoc_item ctx it2) : it = it2 := by
  rw [mem_add_assoc_item] at h1 h2
  rcases h1 with ⟨ct, rfl, rfl, he⟩ | ⟨a, rfl, rfl⟩ <;>
    rcases h2 with ⟨ct2, h2a, h2b, h2c⟩ | ⟨a2, h2a, h2b⟩ <;> simp_all

/-- Fact that `add_assoc_item` writes at most one entry. -/
theorem add_assoc_item_nodup (ctx : CompletionContext) (it : AssocItem) :
    (add_assoc_item ctx it).Nodup := by
  cases it with
  | const ct => cases h : ctx.expectsGenericArg <;> simp [add_assoc_item, h]
  | function f => simp [add_assoc_item]
  | typeAlias a => simp [add_assoc_item]

/-- The deduplicated traversal never writes an entry twice, and never writes
an entry of an item already in the `seen` set. -/
theorem iterate_deduped_nodup_aux (ctx : CompletionContext) :
    ∀ (items seen : List AssocItem),
      (iterate_deduped ctx items seen).Nodup ∧
        ∀ c ∈ iterate_deduped ctx items seen, ∀ it ∈ seen, c ∉ add_assoc_item ctx it := by
  intro items
  induction items with
  | nil => intro seen; simp [iterate_deduped]
  | cons item rest ih =>
    intro seen
    by_cases hmem : item ∈ seen
    · simpa [iterate_deduped, hmem] using ih seen
    · have h := ih (item :: seen)
      have hstep : iterate_deduped ctx (item :: rest) seen =
          add_assoc_item ctx item ++ iterate_deduped ctx rest (item :: seen) := by
        simp [iterate_deduped, hmem]
      constructor
      · rw [hstep, List.nodup_append]
        refine ⟨add_assoc_item_nodup ctx item, h.1, ?_⟩
        intro c hc1 hc2
        exact h.2 c hc2 item (List.mem_cons_self _ _) hc1
      · intro c hc it hit hin
        rw [hstep] at hc
        rcases List.mem_append.mp hc with hc | hc
        · have heq := add_assoc_item_inj ctx item it c hc hin
          subst heq
          exact hmem hit
        · exact h.2 c hc it (List.mem_cons_of_mem _ hit) hin

/-- Every visited associated item not yet in the `seen` set has its sink
writes present in the deduplicated traversal's output. -/
theorem iterate_deduped_complete (ctx : CompletionContext) :
    ∀ (items seen : List AssocItem) (it : AssocItem) (c : Completion),
      it ∈ items → it ∉ seen → c ∈ add_assoc_item ctx it →
        c ∈ iterate_deduped ctx items seen := by
  intro items
  induction items with
  | nil => intro seen it c h; simp at h
  | cons item rest ih =>
    intro seen it c hitems hseen hc
    by_cases heq : it = item
    · subst heq
      have hstep : iterate_deduped ctx (it :: rest) seen =
          add_assoc_item ctx it ++ iterate_deduped ctx rest (it :: seen) := by
        simp [iterate_deduped, hseen]
      rw [hstep]
      exact List.mem_append_left _ hc
    · have hrest : it ∈ rest := by
        rcases List.mem_cons.mp hitems with h | h
        · exact absurd h heq
        · exact h
      by_cases hmem : item ∈ seen
      · have hstep : iterate_deduped ctx (item :: rest) seen =
            iterate_deduped ctx rest seen := by
          simp [iterate_deduped, hmem]
        rw [hstep]
        exact ih seen it c hrest hseen hc
      · have hstep : iterate_deduped ctx (item :: rest) seen =
            add_assoc_item ctx item ++ iterate_deduped ctx rest (item :: seen) := by
          simp [iterate_deduped, hmem]
        rw [hstep]
        refine List.mem_append_right _ (ih (item :: seen) it c hrest ?_ hc)
        intro hx
        rcases List.mem_cons.mp hx with h | h
        · exact heq h
        · exact hseen h

/-- C7: for every scope entry that is a function, enum-variant, static, or
local-binding definition (and for every lifetime parameter or label), the
applicability predicate returns false in every position; for every constant
definition or const generic parameter it returns true exactly when the
current position is inside a generic-argument list. -/
theorem c7_value_defs_never_applicable_consts_only_in_generic_args
    (ctx : CompletionContext) :
    (∀ f, scope_def_applicable ctx (.moduleDef (.function f)) = false) ∧
    (∀ v, scope_def_applicable ctx (.moduleDef (.variant v)) = false) ∧
    (∀ s, scope_def_applicable ctx (.moduleDef (.staticDef s)) = false) ∧
    (∀ l, scope_def_applicable ctx (.localDef l) = false) ∧
    (∀ l, scope_def_applicable ctx (.genericParam (.lifetimeParam l)) = false) ∧
    (∀ l, scope_def_applicable ctx (.label l) = false) ∧
    (∀ c, scope_def_applicable ctx (.moduleDef (.const c)) = ctx.expectsGenericArg) ∧
    (∀ p, scope_def_applicable ctx (.genericParam (.constParam p)) = ctx.expectsGenericArg) :=
  ⟨fun _ => rfl, fun _ => rfl, fun _ => rfl, fun _ => rfl,
   fun _ => rfl, fun _ => rfl, fun _ => rfl, fun _ => rfl⟩

/-- C8: for every scope entry that is the implicit self-type of an enclosing
impl block, the applicability predicate returns false if and only if the
immediately preceding token is the `impl` keyword or the `for` keyword. -/
theorem c8_impl_self_type_excluded_iff_prev_impl_or_for
    (ctx : CompletionContext) (i : ImplId) :
    scope_def_applicable ctx (.implSelfType i) = false ↔
      (previousTokenIs ctx .implKw = true ∨ previousTokenIs ctx .forKw = true) := by
  cases h1 : previousTokenIs ctx .implKw <;>
    cases h2 : previousTokenIs ctx .forKw <;>
      simp [scope_def_applicable, h1, h2]

/-- C9: for every request whose path is absolute, the type-inference flow
emits no inferred-type suggestion. -/
theorem c9_absolute_path_no_inferred_type
    (ctx : CompletionContext) (pc : PathCompletionCtx)
    (h1 : ctx.pathContext = some pc) (h2 : pc.isAbsolutePath = true) :
    complete_inferred_type ctx = [] := by
  simp [complete_inferred_type, h1, h2]

/-- Witness for C9: the concrete absolute-path request `fn f() -> ::$0` with
an otherwise renderable inferred type yields nothing. -/
theorem c9_absolute_path_no_inferred_type_witness :
    complete_inferred_type ctxC9 = [] :=
  c9_absolute_path_no_inferred_type ctxC9 pcC9 rfl rfl

/-- C2: when the path has a qualifier whose resolution is any variant other
than module, algebraic/alias/builtin type, trait, type parameter, or
Self-type-of-impl (including an unresolved qualifier), `complete_type_path`
emits no candidates at all for that request. -/
theorem c2_other_resolutions_emit_nothing
    (ctx : CompletionContext) (pc : PathCompletionCtx) (q : PathQualifierCtx)
    (h1 : ctx.pathContext = some pc) (h2 : pc.kind = .typ)
    (h3 : pc.qualifier = some q) (h4 : q.isInferQualifier = false)
    (h5 : q.resolution = none ∨
      ∃ r, q.resolution = some r ∧ dispatching_resolution r = false) :
    complete_type_path ctx = [] := by
  have hq : complete_type_path ctx = complete_qualified ctx q := by
    simp [complete_type_path, h1, h2, h3]
  rcases h5 with h5 | ⟨r, h5, h6⟩
  · simp [hq, complete_qualified, h4, h5]
  · rcases r with d | l | p | p | i | b | m | d
    · rcases d with m | f | a | v | c | s | t | a | b | mc <;>
        simp_all [hq, complete_qualified, h4, h5, dispatching_resolution,
          assoc_type_shorthand_candidates]
    all_goals
      simp_all [hq, complete_qualified, h4, h5, dispatching_resolution,
        assoc_type_shorthand_candidates]

/-- Witness for C2: a qualifier resolving to a local binding, with names in
scope, yields an empty candidate list. -/
theorem c2_other_resolutions_emit_nothing_witness :
    complete_type_path ctxC2 = [] :=
  c2_other_resolutions_emit_nothing ctxC2 pcC2 qC2 rfl rfl rfl rfl
    (Or.inr ⟨.localRes 5, rfl, rfl⟩)

/-- C4: when the unqualified path sits in trait-bound position, all
in-scope names are enumerated but only function-like macros, traits, and
modules are surfaced, ignoring the general applicability filter, and the
collector returns immediately afterwards so no further unqualified
enumeration runs. -/
theorem c4_trait_bound_position_restricts_and_returns
    (ctx : CompletionContext) (pc : PathCompletionCtx)
    (h1 : ctx.pathContext = some pc) (h2 : pc.kind = .typ)
    (h3 : pc.isAbsolutePath = false) (h4 : pc.qualifier = none)
    (h5 : ctx.completionLocation = some .typeBound) :
    complete_type_path ctx =
      Completion.namerefKeywordsWithColon :: trait_bound_names ctx ∧
    (∀ n d, Completion.resolution n d ∈ complete_type_path ctx →
        trait_bound_filter ctx d = true) ∧
    (∀ n d, (n, d) ∈ ctx.allNames → trait_bound_filter ctx d = true →
        Completion.resolution n d ∈ complete_type_path ctx) := by
  have heq : complete_type_path ctx =
      Completion.namerefKeywordsWithColon :: trait_bound_names ctx := by
    simp [complete_type_path, h1, h2, h4, complete_unqualified, h3, h5]
  refine ⟨heq, ?_, ?_⟩
  · intro n d hd
    rw [heq] at hd
    rcases List.mem_cons.mp hd with h | h
    · simp at h
    · simp only [trait_bound_names, List.mem_filterMap] at h
      obtain ⟨nd, hmem, hnd⟩ := h
      split at hnd
      · next hf =>
          simp only [Option.some.injEq, Completion.resolution.injEq] at hnd
          rw [← hnd.2]
          exact hf
      · exact absurd hnd (by simp)
  · intro n d hmem hf
    rw [heq]
    refine List.mem_cons_of_mem _ ?_
    simp only [trait_bound_names, List.mem_filterMap]
    exact ⟨(n, d), hmem, by simp [hf]⟩

/-- Witness for C4: in trait-bound position with a trait, an ADT and a
non-function-like macro in scope, only the keyword entry and the trait are
surfaced; the ADT is excluded despite being generally applicable. -/
theorem c4_trait_bound_position_restricts_and_returns_witness :
    complete_type_path ctxC4 =
      [Completion.namerefKeywordsWithColon,
        Completion.resolution 0 (.moduleDef (.traitDef 1))] ∧
    Completion.resolution 0 (.moduleDef (.traitDef 1)) ∈ complete_type_path ctxC4 ∧
    scope_def_applicable ctxC4 (.moduleDef (.adt 2)) = true := by
  have h := c4_trait_bound_position_restricts_and_returns ctxC4 pcC4 rfl rfl rfl rfl rfl
  refine ⟨by rw [h.1]; decide, ?_, by decide⟩
  exact h.2.2 0 (.moduleDef (.traitDef 1)) (by decide) (by decide)

/-- C5: when the unqualified path sits in a generic-argument-list position
whose enclosing path segment is inside a trait bound's generic arguments
and the bound's path resolves to a trait, every associated type alias of
that trait including those from supertraits is surfaced via the sink
operation that appends an `=`, and no other associated-item kind is
surfaced from that trait in this branch. -/
theorem c5_generic_args_of_trait_bound_surface_assoc_types_with_eq
    (ctx : CompletionContext) (pc : PathCompletionCtx)
    (argList : GenericArgListCtx) (pathSeg : PathSegment) (t : TraitId)
    (h1 : ctx.pathContext = some pc) (h2 : pc.kind = .typ)
    (h3 : pc.isAbsolutePath = false) (h4 : pc.qualifier = none)
    (h5 : ctx.completionLocation = some (.genericArgList argList))
    (h6 : argList.parentPathSegment = some pathSeg)
    (h7 : pathSeg.inTypeBound = true)
    (h8 : ctx.resolvePath pathSeg.parentPath = some (.defRes (.traitDef t))) :
    complete_type_path ctx =
      Completion.namerefKeywordsWithColon ::
        (assoc_types_with_eq ctx t ++ all_names_applicable ctx) ∧
    (∀ a, AssocItem.typeAlias a ∈ ctx.traitItemsWithSupertraits t →
        Completion.typeAliasWithEq a ∈ complete_type_path ctx) ∧
    (∀ c, c ∈ assoc_types_with_eq ctx t →
        ∃ a, c = Completion.typeAliasWithEq a ∧
          AssocItem.typeAlias a ∈ ctx.traitItemsWithSupertraits t) := by
  have heq : complete_type_path ctx =
      Completion.namerefKeywordsWithColon ::
        (assoc_types_with_eq ctx t ++ all_names_applicable ctx) := by
    simp [complete_type_path, h1, h2, h4, complete_unqualified, h3, h5,
      generic_arg_trait_items, h6, h7, h8]
  refine ⟨heq, ?_, ?_⟩
  · intro a ha
    rw [heq]
    refine List.mem_cons_of_mem _ (List.mem_append_left _ ?_)
    simp only [assoc_types_with_eq, List.mem_filterMap]
    exact ⟨.typeAlias a, ha, rfl⟩
  · intro c hc
    simp only [assoc_types_with_eq, List.mem_filterMap] at hc
    obtain ⟨item, hmem, hitem⟩ := hc
    cases item with
    | const ct => exact absurd hitem (by simp)
    | function f => exact absurd hitem (by simp)
    | typeAlias a =>
        simp only [Option.some.injEq] at hitem
        exact ⟨a, hitem.symm, hmem⟩

/-- Witness for C5: completing inside `T: Trait<$0>` where the trait's
supertrait-closed items are a type alias and a constant surfaces the type
alias with an `=` and nothing else from the trait. -/
theorem c5_generic_args_of_trait_bound_surface_assoc_types_with_eq_witness :
    Completion.typeAliasWithEq 3 ∈ complete_type_path ctxC5 ∧
    complete_type_path ctxC5 =
      [Completion.namerefKeywordsWithColon, Completion.typeAliasWithEq 3] := by
  have h := c5_generic_args_of_trait_bound_surface_assoc_types_with_eq ctxC5 pcC4
    galC5 { inTypeBound := true, parentPath := 0 } 2 rfl rfl rfl rfl rfl rfl rfl rfl
  exact ⟨h.2.1 3 (by decide), by rw [h.1]; decide⟩

/-- C6: when the qualifier resolves to a trait, exactly the trait's own
associated items (not supertrait items) are enumerated and each is passed
through the trait-item rule: associated functions are never surfaced,
associated constants are surfaced only when the position is a
generic-argument list, and associated type aliases are always surfaced. -/
theorem c6_trait_qualifier_own_items_through_trait_item_rule
    (ctx : CompletionContext) (pc : PathCompletionCtx) (q : PathQualifierCtx)
    (t : TraitId)
    (h1 : ctx.pathContext = some pc) (h2 : pc.kind = .typ)
    (h3 : pc.qualifier = some q) (h4 : q.isInferQualifier = false)
    (h5 : q.resolution = some (.defRes (.traitDef t))) :
    complete_type_path ctx = (ctx.traitItems t).flatMap (add_assoc_item ctx) ∧
    (∀ f, add_assoc_item ctx (.function f) = []) ∧
    (∀ c, AssocItem.const c ∈ ctx.traitItems t →
        (Completion.const c ∈ complete_type_path ctx ↔
          ctx.expectsGenericArg = true)) ∧
    (∀ a, AssocItem.typeAlias a ∈ ctx.traitItems t →
        Completion.typeAlias a ∈ complete_type_path ctx) := by
  have heq : complete_type_path ctx =
      (ctx.traitItems t).flatMap (add_assoc_item ctx) := by
    simp [complete_type_path, h1, h2, h3, complete_qualified, h4, h5,
      assoc_type_shorthand_candidates]
  refine ⟨heq, fun _ => rfl, ?_, ?_⟩
  · intro c hc
    constructor
    · intro hmem
      rw [heq] at hmem
      rw [List.mem_flatMap] at hmem
      obtain ⟨it, hit, hin⟩ := hmem
      rw [mem_add_assoc_item] at hin
      rcases hin with ⟨ct, rfl, hcc, he⟩ | ⟨a, rfl, hcc⟩
      · exact he
      · exact absurd hcc (by simp)
    · intro hexp
      rw [heq, List.mem_flatMap]
      exact ⟨.const c, hc, by simp [add_assoc_item, hexp]⟩
  · intro a ha
    rw [heq, List.mem_flatMap]
    exact ⟨.typeAlias a, ha, by simp [add_assoc_item]⟩

/-- Witness for C6: `Trait::$0` outside a generic-argument list, the trait
owning a type alias, a constant and a function, surfaces only the type
alias; the constant is absent because the position is not a
generic-argument list. -/
theorem c6_trait_qualifier_own_items_through_trait_item_rule_witness :
    complete_type_path ctxC6 = [Completion.typeAlias 2] ∧
    Completion.const 3 ∉ complete_type_path ctxC6 := by
  have h := c6_trait_qualifier_own_items_through_trait_item_rule ctxC6 pcC6 qC6 1
    rfl rfl rfl rfl rfl
  refine ⟨by rw [h.1]; decide, ?_⟩
  intro hmem
  exact absurd ((h.2.2.1 3 (by decide)).mp hmem) (by decide)

/-- C1: across the traversal strategies the engine emits each distinct
associated item at most once; an identity-keyed deduplication set is used
in the type-parameter/Self-type traversal (so a type parameter bound by two
traits sharing a supertrait yields a shared associated item exactly once:
the traversal's output is duplicate-free and contains every visited item's
write), and no other branch uses deduplication (the inferred-self and trait
branches forward the semantic model's item sequences as-is). -/
theorem c1_assoc_item_dedup_in_type_param_self_traversal
    (ctx : CompletionContext) (pc : PathCompletionCtx) (q : PathQualifierCtx)
    (h1 : ctx.pathContext = some pc) (h2 : pc.kind = .typ)
    (h3 : pc.qualifier = some q) :
    (∀ p, q.isInferQualifier = false → q.resolution = some (.typeParam p) →
        complete_type_path ctx =
          (assoc_type_shorthand_candidates ctx (.typeParam p)).map Completion.typeAlias ++
            iterate_deduped ctx (ctx.iteratePathCandidates (ctx.typeParamTy p)) [] ∧
          (iterate_deduped ctx (ctx.iteratePathCandidates (ctx.typeParamTy p)) []).Nodup ∧
          (∀ it c, it ∈ ctx.iteratePathCandidates (ctx.typeParamTy p) →
            c ∈ add_assoc_item ctx it →
            c ∈ iterate_deduped ctx (ctx.iteratePathCandidates (ctx.typeParamTy p)) [])) ∧
    (∀ i, q.isInferQualifier = false → q.resolution = some (.selfType i) →
        complete_type_path ctx =
          (assoc_type_shorthand_candidates ctx (.selfType i)).map Completion.typeAlias ++
            iterate_deduped ctx (ctx.iteratePathCandidates (ctx.implSelfTy i)) [] ∧
          (iterate_deduped ctx (ctx.iteratePathCandidates (ctx.implSelfTy i)) []).Nodup) ∧
    (q.isInferQualifier = true →
        complete_type_path ctx =
          (ctx.traitsInScope.flatMap ctx.traitItems).flatMap (add_assoc_item ctx)) ∧
    (∀ t, q.isInferQualifier = false → q.resolution = some (.defRes (.traitDef t)) →
        complete_type_path ctx =
          (assoc_type_shorthand_candidates ctx (.defRes (.traitDef t))).map Completion.typeAlias ++
            (ctx.traitItems t).flatMap (add_assoc_item ctx)) := by
  refine ⟨?_, ?_, ?_, ?_⟩
  · intro p h4 h5
    refine ⟨?_, (iterate_deduped_nodup_aux ctx _ []).1, ?_⟩
    · simp [complete_type_path, h1, h2, h3, complete_qualified, h4, h5]
    · intro it c hit hc
      exact iterate_deduped_complete ctx _ [] it c hit (by simp) hc
  · intro i h4 h5
    refine ⟨?_, (iterate_deduped_nodup_aux ctx _ []).1⟩
    simp [complete_type_path, h1, h2, h3, complete_qualified, h4, h5]
  · intro h4
    simp [complete_type_path, h1, h2, h3, complete_qualified, h4]
  · intro t h4 h5
    simp [complete_type_path, h1, h2, h3, complete_qualified, h4, h5]

/-- Witness for C1: a type-parameter qualifier whose path-candidate
traversal visits the same type alias twice yields it exactly once. -/
theorem c1_assoc_item_dedup_in_type_param_self_traversal_witness :
    complete_type_path ctxC1 = [Completion.typeAlias 1] ∧
    (complete_type_path ctxC1).Nodup := by
  have h := (c1_assoc_item_dedup_in_type_param_self_traversal ctxC1 pcC1 qC1
    rfl rfl rfl).1 0 rfl rfl
  exact ⟨by rw [h.1]; decide, by rw [h.1]; decide⟩

/-- C3: in the type-inference flow, if a path qualifier resolving to a
module is present, a suggestion is emitted only when the inferred type is
an algebraic data type whose owning module equals that qualifier's module;
in every other case under that qualifier the flow aborts with zero
candidates. -/
theorem c3_module_qualifier_requires_adt_in_same_module
    (ctx : CompletionContext) (pc : PathCompletionCtx) (q : PathQualifierCtx)
    (m : ModuleId)
    (h1 : ctx.pathContext = some pc) (h2 : pc.isAbsolutePath = false)
    (h3 : pc.qualifier = some q)
    (h4 : q.resolution = some (.defRes (.module m))) :
    (complete_inferred_type ctx ≠ [] →
      ∃ x adt, inferred_adjusted ctx = some x ∧ ctx.asAdt x = some adt ∧
        ctx.adtModule adt = m) ∧
    (∀ x, inferred_adjusted ctx = some x → ctx.asAdt x = none →
      complete_inferred_type ctx = []) ∧
    (∀ x adt, inferred_adjusted ctx = some x → ctx.asAdt x = some adt →
      ctx.adtModule adt ≠ m → complete_inferred_type ctx = []) ∧
    (∀ x adt, inferred_adjusted ctx = some x → ctx.asAdt x = some adt →
      ctx.adtModule adt = m →
      complete_inferred_type ctx = render_inference ctx x m) := by
  have hbody : complete_inferred_type ctx =
      (match inferred_adjusted ctx with
       | none => []
       | some x =>
           match ctx.asAdt x with
           | some adt =>
               if ctx.adtModule adt ≠ m then [] else render_inference ctx x m
           | none => []) := by
    simp [complete_inferred_type, h1, h2, complete_inferred_type_body, h3, h4]
  refine ⟨?_, ?_, ?_, ?_⟩
  · intro hne
    rw [hbody] at hne
    rcases hx : inferred_adjusted ctx with _ | x
    · simp [hx] at hne
    · rcases hadt : ctx.asAdt x with _ | adt
      · simp [hx, hadt] at hne
      · by_cases hm : ctx.adtModule adt = m
        · exact ⟨x, adt, rfl, hadt, hm⟩
        · simp [hx, hadt, hm] at hne
  · intro x hx hadt
    simp [hbody, hx, hadt]
  · intro x adt hx hadt hm
    simp [hbody, hx, hadt, hm]
  · intro x adt hx hadt hm
    simp [hbody, hx, hadt, hm]

/-- Witness for C3: a return-type annotation under a module qualifier whose
inferred type is an ADT owned by that very module emits the single
inferred-type suggestion. -/
theorem c3_module_qualifier_requires_adt_in_same_module_witness :
    complete_inferred_type ctxC3 = [Completion.inference "MyStruct"] := by
  have h := c3_module_qualifier_requires_adt_in_same_module ctxC3 pcC3 qC3 3
    rfl rfl rfl rfl
  rw [h.2.2.2 9 4 rfl rfl rfl]
  decide

/-- C10: if a path qualifier is present but its resolution is not a module,
the type-inference flow does not abort for that reason: it skips the
module-equality check entirely and renders the inferred type relative to
the current module, so a suggestion can still be emitted. -/
theorem c10_non_module_qualifier_skips_module_check
    (ctx : CompletionContext) (pc : PathCompletionCtx) (q : PathQualifierCtx)
    (r : PathResolution)
    (h1 : ctx.pathContext = some pc) (h2 : pc.isAbsolutePath = false)
    (h3 : pc.qualifier = some q) (h4 : q.resolution = some r)
    (h5 : ∀ m, r ≠ .defRes (.module m)) :
    complete_inferred_type ctx =
      (match inferred_adjusted ctx with
       | none => []
       | some x => render_inference ctx x ctx.module) := by
  have hbase : complete_inferred_type ctx = complete_inferred_type_body ctx (some q) := by
    simp [complete_inferred_type, h1, h2, h3]
  rw [hbase]
  rcases r with d | l | p | p2 | i | b | m | d
  · rcases d with m | f | a | v | c | s | t | a | b | mc
    · exact absurd rfl (h5 m)
    all_goals simp [complete_inferred_type_body, h4]
  all_goals simp [complete_inferred_type_body, h4]

/-- Witness for C10: a let-pattern annotation under a qualifier resolving to
a type parameter still emits an inferred-type suggestion, rendered relative
to the current module, although the inferred type is not an ADT at all. -/
theorem c10_non_module_qualifier_skips_module_check_witness :
    complete_inferred_type ctxC10 = [Completion.inference "Foo"] := by
  have h := c10_non_module_qualifier_skips_module_check ctxC10 pcC10 qC10
    (.typeParam 0) rfl rfl rfl rfl (fun m hm => PathResolution.noConfusion hm)
  rw [h]
  decide

end TypePosition
